import Mathlib

/-!
Verification of the thin-trait-objects repository.

The repository ships two consumer programs, src/example/main.c and
src/examples/ffi/main.c; the library itself (the builder and the dispatch
functions declared in thin_trait_objects.h) is not part of the sources, so
the one definition that depends on it is modelled from the specification and
marked as such.  Everything else below is a shallow embedding of the C code:
C ints become Lean Int with explicit 32-bit wrap-around where overflow
matters, the demo payload's heap buffer becomes an optional list of
characters where the value none stands for memory whose contents are
indeterminate (freshly malloc-ed, never written), and the two main functions
become pure functions from their external inputs (command-line arguments,
stdin lines, and the write/flush results produced by the handle) to the
sequence of handle operations they perform and the process exit code.
-/

namespace ThinTraitObjects

/-- 32-bit two's-complement wrap-around: the value of a C int after an
arithmetic operation whose mathematical result is x. -/
def wrap32 (x : Int) : Int := (x + 2 ^ 31) % 2 ^ 32 - 2 ^ 31

/-- One iteration of the loop body of next_power_of_two in
src/examples/ffi/main.c: power *= 2 on a 32-bit int. -/
def npotStep (power : Int) : Int := wrap32 (power * 2)

/-- The while loop of next_power_of_two (src/examples/ffi/main.c, lines
117-126), with an explicit fuel parameter: while (power < value) power *= 2.
The result none means the loop is still running after consuming all the
fuel. -/
def npotIter (value : Int) : Int → Nat → Option Int
  | power, 0 => if power < value then none else some power
  | power, fuel + 1 =>
      if power < value then npotIter value (npotStep power) fuel else some power

/-- next_power_of_two from src/examples/ffi/main.c.  Fuel 33 is enough for
every terminating run: starting from power = 1 the loop either stops within
31 doublings or wraps to -2^31 and then gets stuck at 0 forever, so a run
that has not stopped after 33 iterations never stops. -/
def next_power_of_two (value : Int) : Option Int := npotIter value 1 33

/-- The loop of next_power_of_two terminates on the given input when run
with some finite amount of fuel. -/
def NextPowTerminates (value : Int) : Prop := ∃ fuel, npotIter value 1 fuel ≠ none

/-- p is the smallest power of two that is greater than or equal to value
(the specification-side description of what next_power_of_two computes). -/
def IsLeastPow2Ge (value p : Int) : Prop :=
  (∃ k : Nat, p = 2 ^ k) ∧ value ≤ p ∧
    ∀ q : Int, (∃ k : Nat, q = 2 ^ k) → value ≤ q → p ≤ q

/-- The set of int values the power variable of next_power_of_two ranges
over when the loop never exits: the in-range powers of two, the wrapped
value -2^31, and the absorbing value 0. -/
def badSet (p : Int) : Prop :=
  p = 0 ∨ p = -(2 ^ 31) ∨ ∃ n : Nat, n ≤ 30 ∧ p = 2 ^ n

/-- The CustomFileHandle payload struct of src/examples/ffi/main.c.  The
buffer field models the contents of the heap-allocated character buffer as
the NUL-terminated string it holds: some content when the buffer holds a
terminated string, none when the allocation has never been written and its
contents are indeterminate. -/
structure CustomFileHandle where
  total_bytes_written : Int
  capacity : Int
  buffer : Option (List Char)
deriving DecidableEq

/-- custom_write from src/examples/ffi/main.c (lines 128-147).  The data
argument models a NUL-free C string whose strlen is the len argument, as at
every call site in the program.  The console echo (printf) is not observed
by any claim and is elided; the store of the terminating NUL at index
total_bytes_written is reflected in the content model by the appended string
being exactly the new content (its out-of-bounds character is the subject of
a separate arithmetic theorem).  The result none means the call does not
return because next_power_of_two loops forever. -/
def custom_write (h : CustomFileHandle) (data : List Char) :
    Option (CustomFileHandle × Int) :=
  if h.capacity ≤ h.total_bytes_written + (data.length : Int) then
    match next_power_of_two (h.total_bytes_written + (data.length : Int)) with
    | none => none
    | some cap =>
        some ({ total_bytes_written := h.total_bytes_written + (data.length : Int),
                capacity := cap,
                buffer := Option.map (fun content => content ++ data) h.buffer },
              (data.length : Int))
  else
    some ({ total_bytes_written := h.total_bytes_written + (data.length : Int),
            capacity := h.capacity,
            buffer := Option.map (fun content => content ++ data) h.buffer },
          (data.length : Int))

/-- custom_flush from src/examples/ffi/main.c (lines 149-161): print the
buffer between the two markers, free the buffer, reset the counter to 0,
malloc a fresh 16-byte buffer, set capacity to 16, return 0.  The result is
(new payload state, return value, bytes printed); the printed bytes are none
when the buffer contents are indeterminate.  The fresh allocation is never
written (the source stores no terminator in it), so its contents are
indeterminate: buffer := none. -/
def custom_flush (h : CustomFileHandle) : CustomFileHandle × Int × Option (List Char) :=
  ({ total_bytes_written := 0, capacity := 16, buffer := none },
   0,
   Option.map (fun content => "[BEGIN FLUSH]".toList ++ content ++ "[END FLUSH]".toList)
     h.buffer)

/-- The payload state produced by custom_file_handle (src/examples/ffi/main.c,
lines 163-181): total_bytes_written = 0, capacity = 16, buffer = malloc(16)
with buffer[0] = 0, i.e. the empty string. -/
def custom_file_handle_payload : CustomFileHandle :=
  { total_bytes_written := 0, capacity := 16, buffer := some [] }

/-- One operation performed on the demo payload. -/
inductive DemoOp
  | write (data : List Char)
  | flush
deriving DecidableEq

/-- Run a sequence of write and flush calls against the demo payload,
threading the payload state; none when some write call never returns. -/
def demoRun (h : CustomFileHandle) : List DemoOp → Option CustomFileHandle
  | [] => some h
  | DemoOp.write d :: ops =>
      match custom_write h d with
      | none => none
      | some (h2, _) => demoRun h2 ops
  | DemoOp.flush :: ops => demoRun (custom_flush h).1 ops

/-- The counter value predicted by the source semantics: every write adds
its length, every flush resets the counter to 0. -/
def runningCounter : Int → List DemoOp → Int
  | acc, [] => acc
  | acc, DemoOp.write d :: ops => runningCounter (acc + (d.length : Int)) ops
  | _, DemoOp.flush :: ops => runningCounter 0 ops

/-- The sum of the length arguments of all write calls in the sequence. -/
def writesTotal : List DemoOp → Int
  | [] => 0
  | DemoOp.write d :: ops => (d.length : Int) + writesTotal ops
  | DemoOp.flush :: ops => writesTotal ops

/-- A 20-character write payload used to exercise the growth scenario. -/
def demoData20 : List Char := "aaaaaaaaaaaaaaaaaaaa".toList

/-- A 16-character write payload used to exercise the exact-power case. -/
def demoData16 : List Char := "aaaaaaaaaaaaaaaa".toList

/-- Round addr up to the next multiple of align. -/
def alignUp (addr align : Nat) : Nat := (addr + align - 1) / align * align

/-- Modelled from the spec: the library function new_file_handle_builder is
not under src/ (only its header declaration and call sites are).  Per the
spec it performs one combined allocation holding the dispatch bookkeeping
followed by the payload and returns a correctly aligned payload pointer; the
payload region therefore starts at the first multiple of payload_alignment
at or after base + header, where base is the (non-null) address returned by
the allocator and header is the size of the dispatch bookkeeping. -/
def builderPlace (base header align : Nat) : Nat := alignUp (base + header) align

/-- One observable operation on a FileHandle performed by a main program. -/
inductive FHEvent
  | construct
  | write (r : Int)
  | flush (r : Int)
  | destroy
deriving DecidableEq

/-- Number of destroy events in a trace. -/
def destroyCount : List FHEvent → Nat
  | [] => 0
  | FHEvent.destroy :: es => destroyCount es + 1
  | _ :: es => destroyCount es

/-- The write results recorded in a trace, in order. -/
def writeResults : List FHEvent → List Int
  | [] => []
  | FHEvent.write r :: es => r :: writeResults es
  | _ :: es => writeResults es

/-- The prefix of the stdin write results the copying loop actually
attempts: everything up to and including the first negative result. -/
def takeThroughNeg : List Int → List Int
  | [] => []
  | r :: rs => if r < 0 then [r] else r :: takeThroughNeg rs

/-- The stdin-copying loop of src/example/main.c (lines 49-61), as a
function of the write result each line receives: one write per line; a
negative result destroys the handle and exits with 1; end of input destroys
the handle and exits with 0. -/
def exampleCopyLoop : List Int → List FHEvent × Int
  | [] => ([FHEvent.destroy], 0)
  | r :: rs =>
      if r < 0 then ([FHEvent.write r, FHEvent.destroy], 1)
      else (FHEvent.write r :: (exampleCopyLoop rs).1, (exampleCopyLoop rs).2)

/-- main of src/example/main.c (lines 25-64) as a function of its external
inputs: whether construction succeeds, the result of the greeting write
(whose length is 13), and the write result of each stdin line.  Output: the
trace of handle operations and the exit code. -/
def exampleMain (constructOk : Bool) (w0 : Int) (ws : List Int) :
    List FHEvent × Int :=
  if constructOk = false then ([], 1)
  else if w0 ≠ 13 then ([FHEvent.construct, FHEvent.write w0, FHEvent.destroy], 1)
  else (FHEvent.construct :: FHEvent.write w0 :: (exampleCopyLoop ws).1,
        (exampleCopyLoop ws).2)

/-- The stdin-copying loop of src/examples/ffi/main.c (lines 71-93).  Each
line is described by its write result, whether it contains the substring
flush, and the flush result the handle would produce.  A negative write
result destroys the handle and exits with 1; a failing flush exits with the
flush result without destroying the handle (faithful to the source, which
returns ret there without calling file_handle_destroy). -/
def ffiCopyLoop : List (Int × Bool × Int) → List FHEvent × Int
  | [] => ([FHEvent.destroy], 0)
  | (r, hasFlush, fr) :: rest =>
      if r < 0 then ([FHEvent.write r, FHEvent.destroy], 1)
      else if hasFlush then
        if fr ≠ 0 then ([FHEvent.write r, FHEvent.flush fr], fr)
        else (FHEvent.write r :: FHEvent.flush fr :: (ffiCopyLoop rest).1,
              (ffiCopyLoop rest).2)
      else (FHEvent.write r :: (ffiCopyLoop rest).1, (ffiCopyLoop rest).2)

/-- main of src/examples/ffi/main.c (lines 16-96) after construction has
been chosen, as a function of its external inputs, analogous to
exampleMain. -/
def ffiMain (constructOk : Bool) (w0 : Int) (lines : List (Int × Bool × Int)) :
    List FHEvent × Int :=
  if constructOk = false then ([], 1)
  else if w0 ≠ 13 then ([FHEvent.construct, FHEvent.write w0, FHEvent.destroy], 1)
  else (FHEvent.construct :: FHEvent.write w0 :: (ffiCopyLoop lines).1,
        (ffiCopyLoop lines).2)

/-- The argument-scanning loop of main in src/examples/ffi/main.c (lines
16-27): none when a help flag makes the program print usage and exit,
otherwise the final value of the custom flag.  The condition on the custom
branch is faithful to the source, whose second operand is
strcmp(argv[i], "--custom") without a comparison against 0. -/
def ffiParse : List String → Option Bool
  | [] => some false
  | a :: rest =>
      if a = "-h" ∨ a = "--help" then none
      else
        match ffiParse rest with
        | none => none
        | some c => some (c || a == "-c" || !(a == "--custom"))

/-- Which construction main of src/examples/ffi/main.c performs. -/
inductive FfiConstruction
  | customHandle
  | fromPath (p : String)
  | fromStdout
  | helpExit
deriving DecidableEq

/-- The construction decision of main in src/examples/ffi/main.c (lines
16-48): help exits, otherwise a set custom flag selects the builder-based
custom handle, otherwise the first argument (if any) is used as the output
path, otherwise standard output is wrapped. -/
def ffiChoose (args : List String) : FfiConstruction :=
  match ffiParse args with
  | none => FfiConstruction.helpExit
  | some true => FfiConstruction.customHandle
  | some false =>
      match args with
      | [] => FfiConstruction.fromStdout
      | p :: _ => FfiConstruction.fromPath p

/-! ### Lemmas about next_power_of_two -/

lemma wrap32_eq_of_bounds (x : Int) (h1 : -(2 ^ 31) ≤ x) (h2 : x < 2 ^ 31) :
    wrap32 x = x := by
  unfold wrap32
  have h3 : (0 : Int) ≤ x + 2 ^ 31 := by linarith
  have h4 : x + 2 ^ 31 < 2 ^ 32 := by norm_num at h2 ⊢; linarith
  rw [Int.emod_eq_of_lt h3 h4]
  ring

lemma two_pow_le_two_pow_int (m n : Nat) (h : m ≤ n) : (2 : Int) ^ m ≤ 2 ^ n :=
  pow_le_pow_right₀ (by norm_num) h

lemma badSet_lt (value p : Int) (hv : 2 ^ 30 < value) (hp : badSet p) :
    p < value := by
  rcases hp with h0 | hneg | ⟨n, hn30, rfl⟩
  · subst h0
    have : (0 : Int) < 2 ^ 30 := by positivity
    linarith
  · subst hneg
    have : (0 : Int) < 2 ^ 30 := by positivity
    have : (0 : Int) < 2 ^ 31 := by positivity
    linarith
  · exact lt_of_le_of_lt (two_pow_le_two_pow_int n 30 hn30) hv

lemma badSet_step (p : Int) (hp : badSet p) : badSet (npotStep p) := by
  rcases hp with h0 | hneg | ⟨n, hn30, rfl⟩
  · subst h0
    left
    decide
  · subst hneg
    left
    decide
  · by_cases h29 : n ≤ 29
    · right; right
      refine ⟨n + 1, by omega, ?_⟩
      have hlow : -(2 ^ 31) ≤ (2 : Int) ^ n * 2 := by
        have : (0 : Int) ≤ 2 ^ n * 2 := by positivity
        have : (0 : Int) < 2 ^ 31 := by positivity
        linarith
      have hhigh : (2 : Int) ^ n * 2 < 2 ^ 31 := by
        have h1 : (2 : Int) ^ n * 2 = 2 ^ (n + 1) := by ring
        rw [h1]
        have h2 : (2 : Int) ^ (n + 1) ≤ 2 ^ 30 := two_pow_le_two_pow_int (n + 1) 30 (by omega)
        have h3 : (2 : Int) ^ 30 < 2 ^ 31 := by norm_num
        linarith
      unfold npotStep
      rw [wrap32_eq_of_bounds _ hlow hhigh]
      ring
    · have hn : n = 30 := by omega
      subst hn
      right; left
      decide

lemma npotIter_none (value : Int) (hv : 2 ^ 30 < value) :
    ∀ (fuel : Nat) (p : Int), badSet p → npotIter value p fuel = none := by
  intro fuel
  induction fuel with
  | zero =>
      intro p hp
      simp only [npotIter]
      rw [if_pos (badSet_lt value p hv hp)]
  | succ n ih =>
      intro p hp
      simp only [npotIter]
      rw [if_pos (badSet_lt value p hv hp)]
      exact ih (npotStep p) (badSet_step p hp)

lemma npotIter_sound :
    ∀ (fuel j : Nat) (value : Int), 1 ≤ value → value ≤ 2 ^ 30 → j ≤ 30 →
      (2 : Int) ^ j < 2 * value → value ≤ (2 : Int) ^ (j + fuel) →
      ∃ k : Nat, k ≤ 30 ∧ npotIter value ((2 : Int) ^ j) fuel = some ((2 : Int) ^ k) ∧
        value ≤ (2 : Int) ^ k ∧ (2 : Int) ^ k < 2 * value := by
  intro fuel
  induction fuel with
  | zero =>
      intro j value h1 h2 hj hlt hle
      refine ⟨j, hj, ?_, by simpa using hle, hlt⟩
      simp only [npotIter]
      rw [if_neg (not_lt.mpr (by simpa using hle))]
  | succ n ih =>
      intro j value h1 h2 hj hlt hle
      by_cases hg : (2 : Int) ^ j < value
      · have hj29 : j ≤ 29 := by
          by_contra hcon
          have hj30 : j = 30 := by omega
          subst hj30
          exact absurd (lt_of_lt_of_le hg h2) (lt_irrefl _)
        have hstep : npotStep ((2 : Int) ^ j) = (2 : Int) ^ (j + 1) := by
          unfold npotStep
          have hlow : -(2 ^ 31) ≤ (2 : Int) ^ j * 2 := by
            have : (0 : Int) ≤ 2 ^ j * 2 := by positivity
            have : (0 : Int) < 2 ^ 31 := by positivity
            linarith
          have hhigh : (2 : Int) ^ j * 2 < 2 ^ 31 := by
            have hh1 : (2 : Int) ^ j * 2 = 2 ^ (j + 1) := by ring
            rw [hh1]
            have hh2 : (2 : Int) ^ (j + 1) ≤ 2 ^ 30 :=
              two_pow_le_two_pow_int (j + 1) 30 (by omega)
            have hh3 : (2 : Int) ^ 30 < 2 ^ 31 := by norm_num
            linarith
          rw [wrap32_eq_of_bounds _ hlow hhigh]
          ring
        simp only [npotIter]
        rw [if_pos hg, hstep]
        refine ih (j + 1) value h1 h2 (by omega) ?_ ?_
        · have : (2 : Int) ^ (j + 1) = 2 ^ j * 2 := by ring
          rw [this]
          linarith
        · have harith : j + 1 + n = j + (n + 1) := by omega
          rw [harith]
          exact hle
      · refine ⟨j, hj, ?_, not_lt.mp hg, hlt⟩
        simp only [npotIter]
        rw [if_neg hg]

lemma npot_some_spec (value p : Int) (h1 : 1 ≤ value)
    (hs : next_power_of_two value = some p) :
    value ≤ 2 ^ 30 ∧
      ∃ k : Nat, k ≤ 30 ∧ p = 2 ^ k ∧ value ≤ 2 ^ k ∧ (2 : Int) ^ k < 2 * value := by
  by_cases h2 : value ≤ 2 ^ 30
  · refine ⟨h2, ?_⟩
    obtain ⟨k, hk30, hit, hle, hlt⟩ :=
      npotIter_sound 33 0 value h1 h2 (by omega) (by norm_num; linarith)
        (le_trans h2 (two_pow_le_two_pow_int 30 33 (by omega)))
    have hone : ((2 : Int) ^ (0 : Nat)) = 1 := by norm_num
    rw [hone] at hit
    unfold next_power_of_two at hs
    rw [hit] at hs
    exact ⟨k, hk30, (Option.some.injEq _ _).mp hs.symm, hle, hlt⟩
  · exfalso
    have hv : 2 ^ 30 < value := not_le.mp h2
    have hnone := npotIter_none value hv 33 1 (Or.inr (Or.inr ⟨0, by omega, by norm_num⟩))
    unfold next_power_of_two at hs
    rw [hnone] at hs
    exact Option.noConfusion hs

lemma isLeastPow2Ge_of (value : Int) (k : Nat) (hle : value ≤ 2 ^ k)
    (hlt : (2 : Int) ^ k < 2 * value) : IsLeastPow2Ge value (2 ^ k) := by
  refine ⟨⟨k, rfl⟩, hle, ?_⟩
  rintro q ⟨m, rfl⟩ hq
  by_contra hcon
  push_neg at hcon
  have hmk : m < k := (pow_lt_pow_iff_right₀ (by norm_num : (1 : Int) < 2)).mp hcon
  have hsucc : (2 : Int) ^ (m + 1) ≤ 2 ^ k := two_pow_le_two_pow_int (m + 1) k (by omega)
  have hdouble : 2 * value ≤ (2 : Int) ^ (m + 1) := by
    have : (2 : Int) ^ (m + 1) = 2 ^ m * 2 := by ring
    rw [this]
    linarith
  linarith

lemma npot_some_least (value p : Int) (h1 : 1 ≤ value)
    (hs : next_power_of_two value = some p) : IsLeastPow2Ge value p := by
  obtain ⟨-, k, -, hp, hle, hlt⟩ := npot_some_spec value p h1 hs
  subst hp
  exact isLeastPow2Ge_of value k hle hlt

/-! ### Lemmas about the demo payload -/

lemma custom_write_spec (h : CustomFileHandle) (data : List Char)
    (out : CustomFileHandle × Int) (hw : custom_write h data = some out) :
    out.1.total_bytes_written = h.total_bytes_written + (data.length : Int) ∧
      out.2 = (data.length : Int) ∧
      (h.capacity ≤ h.total_bytes_written + (data.length : Int) →
        next_power_of_two (h.total_bytes_written + (data.length : Int)) =
          some out.1.capacity) ∧
      (h.total_bytes_written + (data.length : Int) < h.capacity →
        out.1.capacity = h.capacity) := by
  unfold custom_write at hw
  by_cases hc : h.capacity ≤ h.total_bytes_written + (data.length : Int)
  · rw [if_pos hc] at hw
    cases hnp : next_power_of_two (h.total_bytes_written + (data.length : Int)) with
    | none =>
        rw [hnp] at hw
        exact Option.noConfusion hw
    | some cap =>
        rw [hnp] at hw
        injection hw with hw2
        subst hw2
        exact ⟨rfl, rfl, fun _ => rfl, fun hlt => absurd hc (not_le.mpr hlt)⟩
  · rw [if_neg hc] at hw
    injection hw with hw2
    subst hw2
    exact ⟨rfl, rfl, fun hcc => absurd hcc hc, fun _ => rfl⟩

lemma demoRun_cap (ops : List DemoOp) :
    ∀ (h s : CustomFileHandle), (∃ k : Nat, k ≤ 30 ∧ h.capacity = 2 ^ k) →
      demoRun h ops = some s → ∃ k : Nat, k ≤ 30 ∧ s.capacity = 2 ^ k := by
  induction ops with
  | nil =>
      intro h s hk hrun
      simp only [demoRun] at hrun
      injection hrun with hrun2
      subst hrun2
      exact hk
  | cons op ops ih =>
      intro h s hk hrun
      cases op with
      | flush =>
          simp only [demoRun] at hrun
          exact ih _ s ⟨4, by omega, by norm_num [custom_flush]⟩ hrun
      | write d =>
          simp only [demoRun] at hrun
          cases hw : custom_write h d with
          | none =>
              rw [hw] at hrun
              exact Option.noConfusion hrun
          | some out =>
              obtain ⟨h2, r⟩ := out
              rw [hw] at hrun
              obtain ⟨-, -, hthen, helse⟩ := custom_write_spec h d (h2, r) hw
              obtain ⟨k, hk30, hcap⟩ := hk
              by_cases hc : h.capacity ≤ h.total_bytes_written + (d.length : Int)
              · have h1 : (1 : Int) ≤ h.total_bytes_written + (d.length : Int) := by
                  have : (1 : Int) ≤ 2 ^ k := by
                    simpa using two_pow_le_two_pow_int 0 k (Nat.zero_le k)
                  rw [hcap] at hc
                  linarith
                obtain ⟨-, m, hm30, hm, -, -⟩ :=
                  npot_some_spec _ _ h1 (hthen hc)
                exact ih h2 s ⟨m, hm30, hm⟩ hrun
              · have hlt := not_le.mp hc
                have := helse hlt
                exact ih h2 s ⟨k, hk30, by rw [this, hcap]⟩ hrun

lemma demoRun_counter (ops : List DemoOp) :
    ∀ (h s : CustomFileHandle), demoRun h ops = some s →
      s.total_bytes_written = runningCounter h.total_bytes_written ops := by
  induction ops with
  | nil =>
      intro h s hrun
      simp only [demoRun] at hrun
      injection hrun with hrun2
      subst hrun2
      rfl
  | cons op ops ih =>
      intro h s hrun
      cases op with
      | flush =>
          simp only [demoRun] at hrun
          simpa only [runningCounter] using ih _ s hrun
      | write d =>
          simp only [demoRun] at hrun
          cases hw : custom_write h d with
          | none =>
              rw [hw] at hrun
              exact Option.noConfusion hrun
          | some out =>
              obtain ⟨h2, r⟩ := out
              rw [hw] at hrun
              obtain ⟨htot, -, -, -⟩ := custom_write_spec h d (h2, r) hw
              simp only [runningCounter]
              rw [← htot]
              exact ih h2 s hrun

/-! ### Lemmas about the stdin-copying loops -/

lemma exampleCopyLoop_spec (rs : List Int) :
    ((exampleCopyLoop rs).2 = 1 ↔ ∃ r ∈ rs, r < 0) ∧
      writeResults (exampleCopyLoop rs).1 = takeThroughNeg rs := by
  induction rs with
  | nil => simp [exampleCopyLoop, writeResults, takeThroughNeg]
  | cons r rs ih =>
      by_cases hr : r < 0
      · simp [exampleCopyLoop, hr, writeResults, takeThroughNeg]
      · simp [exampleCopyLoop, hr, writeResults, takeThroughNeg, ih.1, ih.2]

lemma ffiCopyLoop_spec (lines : List (Int × Bool × Int))
    (hfr : ∀ l ∈ lines, l.2.2 = 0) :
    ((ffiCopyLoop lines).2 = 1 ↔ ∃ l ∈ lines, l.1 < 0) ∧
      writeResults (ffiCopyLoop lines).1 = takeThroughNeg (lines.map Prod.fst) := by
  induction lines with
  | nil => simp [ffiCopyLoop, writeResults, takeThroughNeg]
  | cons l rest ih =>
      obtain ⟨r, hasFlush, fr⟩ := l
      have hfr0 : fr = 0 := hfr (r, hasFlush, fr) (List.mem_cons_self _ _)
      subst hfr0
      have ihrest := ih (fun x hx => hfr x (List.mem_cons_of_mem _ hx))
      by_cases hr : r < 0
      · cases hasFlush with
        | true => simp [ffiCopyLoop, hr, writeResults, takeThroughNeg]
        | false => simp [ffiCopyLoop, hr, writeResults, takeThroughNeg]
      · cases hasFlush with
        | true =>
            simp [ffiCopyLoop, hr, writeResults, takeThroughNeg, ihrest.1, ihrest.2]
        | false =>
            simp [ffiCopyLoop, hr, writeResults, takeThroughNeg, ihrest.1, ihrest.2]

/-! ### Claim theorems -/

/-- C1: for every builder call with a positive allocation base and a
power-of-two payload alignment, the payload pointer handed back by the
builder is non-null and its address is a multiple of the alignment, so a
caller such as custom_file_handle can initialize the payload fields without
a null check. -/
theorem builder_place_nonnull_aligned (base header align : Nat)
    (hbase : 0 < base) (halign : ∃ k : Nat, align = 2 ^ k) :
    builderPlace base header align ≠ 0 ∧ builderPlace base header align % align = 0 := by
  obtain ⟨k, rfl⟩ := halign
  have hpos : 0 < 2 ^ k := pow_pos (by norm_num) k
  constructor
  · have hone : 1 ≤ (base + header + 2 ^ k - 1) / 2 ^ k := by
      rw [Nat.one_le_div_iff hpos]
      omega
    have := Nat.mul_le_mul hone (le_refl (2 ^ k))
    unfold builderPlace alignUp
    omega
  · exact Nat.mul_mod_left _ _

/-- Witness for C1 at base 4096, header 24, alignment 8. -/
theorem builder_place_nonnull_aligned_witness :
    0 < 4096 ∧ (∃ k : Nat, 8 = 2 ^ k) ∧
      (builderPlace 4096 24 8 ≠ 0 ∧ builderPlace 4096 24 8 % 8 = 0) :=
  ⟨by decide, ⟨3, by decide⟩,
    builder_place_nonnull_aligned 4096 24 8 (by decide) ⟨3, by decide⟩⟩

/-- C2: whenever custom_write returns, its return value is exactly the
length argument, hence at most the length argument. -/
theorem custom_write_result_eq_length (h : CustomFileHandle) (data : List Char)
    (out : CustomFileHandle × Int) (hw : custom_write h data = some out) :
    out.2 = (data.length : Int) ∧ out.2 ≤ (data.length : Int) := by
  obtain ⟨-, hret, -, -⟩ := custom_write_spec h data out hw
  exact ⟨hret, le_of_eq hret⟩

/-- Witness for C2: a 2-byte write on the freshly constructed payload
returns 2. -/
theorem custom_write_result_eq_length_witness :
    custom_write custom_file_handle_payload "ab".toList =
      some ({ total_bytes_written := 2, capacity := 16, buffer := some "ab".toList }, 2) ∧
    ((2 : Int) = ("ab".toList.length : Int) ∧ (2 : Int) ≤ ("ab".toList.length : Int)) :=
  ⟨by decide,
    custom_write_result_eq_length custom_file_handle_payload "ab".toList
      ({ total_bytes_written := 2, capacity := 16, buffer := some "ab".toList }, 2)
      (by decide)⟩

/-- C3: on every payload state reachable from construction, a write that
makes the accumulated size exceed the current capacity sets the capacity to
the smallest power of two greater than or equal to the accumulated size,
and a write that keeps the accumulated size within the current capacity
leaves the capacity unchanged. -/
theorem demo_capacity_growth (ops : List DemoOp) (s : CustomFileHandle)
    (data : List Char) (out : CustomFileHandle × Int)
    (hreach : demoRun custom_file_handle_payload ops = some s)
    (hw : custom_write s data = some out) :
    (s.capacity < s.total_bytes_written + (data.length : Int) →
        IsLeastPow2Ge (s.total_bytes_written + (data.length : Int)) out.1.capacity) ∧
      (s.total_bytes_written + (data.length : Int) ≤ s.capacity →
        out.1.capacity = s.capacity) := by
  obtain ⟨k, hk30, hcap⟩ :=
    demoRun_cap ops custom_file_handle_payload s
      ⟨4, by omega, by norm_num [custom_file_handle_payload]⟩ hreach
  obtain ⟨-, -, hthen, helse⟩ := custom_write_spec s data out hw
  have hone : (1 : Int) ≤ 2 ^ k := by
    simpa using two_pow_le_two_pow_int 0 k (Nat.zero_le k)
  constructor
  · intro hgrow
    have h1 : (1 : Int) ≤ s.total_bytes_written + (data.length : Int) := by
      rw [hcap] at hgrow
      linarith
    exact npot_some_least _ _ h1 (hthen (le_of_lt hgrow))
  · intro hle
    by_cases hc : s.capacity ≤ s.total_bytes_written + (data.length : Int)
    · have heq : s.total_bytes_written + (data.length : Int) = s.capacity :=
        le_antisymm hle hc
      have h1 : (1 : Int) ≤ s.total_bytes_written + (data.length : Int) := by
        rw [heq, hcap]
        exact hone
      obtain ⟨-, m, hm30, hm, hlem, hltm⟩ := npot_some_spec _ _ h1 (hthen hc)
      rw [heq, hcap] at hlem hltm
      have hkm : k ≤ m := (pow_le_pow_iff_right₀ (by norm_num : (1 : Int) < 2)).mp hlem
      have hmk : m < k + 1 := by
        have hdo : (2 : Int) * 2 ^ k = 2 ^ (k + 1) := by ring
        rw [hdo] at hltm
        exact (pow_lt_pow_iff_right₀ (by norm_num : (1 : Int) < 2)).mp hltm
      have hmkeq : m = k := by omega
      rw [hm, hmkeq, ← hcap]
    · exact helse (not_le.mp hc)

/-- Witness for C3: from the freshly constructed payload (capacity 16), a
single 20-byte write grows the capacity to 32, the smallest power of two
greater than or equal to 20. -/
theorem demo_capacity_growth_witness :
    demoRun custom_file_handle_payload [] = some custom_file_handle_payload ∧
    custom_write custom_file_handle_payload demoData20 =
      some ({ total_bytes_written := 20, capacity := 32, buffer := some demoData20 }, 20) ∧
    ((custom_file_handle_payload.capacity <
        custom_file_handle_payload.total_bytes_written + (demoData20.length : Int) →
        IsLeastPow2Ge
          (custom_file_handle_payload.total_bytes_written + (demoData20.length : Int))
          32) ∧
      (custom_file_handle_payload.total_bytes_written + (demoData20.length : Int) ≤
          custom_file_handle_payload.capacity →
        (32 : Int) = custom_file_handle_payload.capacity)) :=
  ⟨rfl, by decide,
    demo_capacity_growth [] custom_file_handle_payload demoData20
      ({ total_bytes_written := 20, capacity := 32, buffer := some demoData20 }, 20)
      rfl (by decide)⟩

/-- C4 counterexample: writing 2 bytes then 3 bytes and then flushing leaves
the counter at 0, not at the sum 5 of all lengths written since
construction, because custom_flush resets total_bytes_written. -/
theorem demo_counter_counterexample :
    demoRun custom_file_handle_payload
        [DemoOp.write "ab".toList, DemoOp.write "cde".toList, DemoOp.flush] =
      some { total_bytes_written := 0, capacity := 16, buffer := none } ∧
    writesTotal [DemoOp.write "ab".toList, DemoOp.write "cde".toList, DemoOp.flush] = 5 ∧
    (0 : Int) ≠ 5 :=
  ⟨by decide, by decide, by decide⟩

/-- C4 amended: after any terminating sequence of write and flush calls on
a freshly constructed payload, total_bytes_written equals the sum of the
length arguments of the write calls made since the most recent flush (or
since construction if no flush occurred). -/
theorem demo_counter_since_last_flush (ops : List DemoOp) (s : CustomFileHandle)
    (hrun : demoRun custom_file_handle_payload ops = some s) :
    s.total_bytes_written = runningCounter 0 ops :=
  demoRun_counter ops custom_file_handle_payload s hrun

/-- Witness for C4: writing 2 bytes then 3 bytes with no flush leaves the
counter at 5. -/
theorem demo_counter_since_last_flush_witness :
    demoRun custom_file_handle_payload
        [DemoOp.write "ab".toList, DemoOp.write "cde".toList] =
      some { total_bytes_written := 5, capacity := 16, buffer := some "abcde".toList } ∧
    (5 : Int) = runningCounter 0 [DemoOp.write "ab".toList, DemoOp.write "cde".toList] :=
  ⟨by decide,
    demo_counter_since_last_flush
      [DemoOp.write "ab".toList, DemoOp.write "cde".toList]
      { total_bytes_written := 5, capacity := 16, buffer := some "abcde".toList }
      (by decide)⟩

/-- C5: flushing the freshly constructed payload emits exactly the buffered
bytes framed by the begin and end markers, returns 0 and resets the
capacity to 16, but it leaves the fresh 16-byte buffer unwritten (no
terminating NUL is stored, unlike in custom_file_handle), so the buffered
content afterwards is indeterminate rather than empty. -/
theorem custom_flush_output_and_reset :
    custom_flush custom_file_handle_payload =
      ({ total_bytes_written := 0, capacity := 16, buffer := none }, 0,
        some "[BEGIN FLUSH][END FLUSH]".toList) ∧
    (custom_flush custom_file_handle_payload).1.buffer ≠ some [] :=
  ⟨by decide, by decide⟩

/-- C6: in the ffi example, a run in which the handle is constructed, the
greeting write succeeds, and the only stdin line triggers a failing flush
terminates without ever invoking file_handle_destroy: the flush-failure
path returns without destroying the handle. -/
theorem ffi_flush_failure_skips_destroy :
    ffiMain true 13 [(5, true, 1)] =
      ([FHEvent.construct, FHEvent.write 13, FHEvent.write 5, FHEvent.flush 1], 1) ∧
    destroyCount (ffiMain true 13 [(5, true, 1)]).1 = 0 :=
  ⟨by decide, by decide⟩

/-- C7: the ffi example selects the builder-based custom handle for the
argument list [out.txt] although no argument equals -c or --custom, and for
the argument list [--custom] it does not select the custom handle but opens
the path --custom, because the source compares strcmp(argv[i], "--custom")
without testing it against 0. -/
theorem ffi_custom_flag_counterexample :
    ffiChoose ["out.txt"] = FfiConstruction.customHandle ∧
    (¬ ∃ a ∈ ["out.txt"], a = "-c" ∨ a = "--custom") ∧
    ffiChoose ["--custom"] = FfiConstruction.fromPath "--custom" :=
  ⟨by decide, by decide, by decide⟩

/-- C8: in the stdin-copying loops of both example programs a write result
is treated as a fatal error exactly when it is negative, and every line up
to and including the first negatively answered one is written exactly once,
with no retry for short writes (the ffi loop is considered on runs whose
flushes succeed, so that the only error exits are write failures). -/
theorem copy_loop_failure_iff_negative (rs : List Int)
    (lines : List (Int × Bool × Int)) (hfr : ∀ l ∈ lines, l.2.2 = 0) :
    (((exampleCopyLoop rs).2 = 1 ↔ ∃ r ∈ rs, r < 0) ∧
        writeResults (exampleCopyLoop rs).1 = takeThroughNeg rs) ∧
      (((ffiCopyLoop lines).2 = 1 ↔ ∃ l ∈ lines, l.1 < 0) ∧
        writeResults (ffiCopyLoop lines).1 = takeThroughNeg (lines.map Prod.fst)) :=
  ⟨exampleCopyLoop_spec rs, ffiCopyLoop_spec lines hfr⟩

/-- Witness for C8 on a run with a short write, a failing write, and a
successful flush. -/
theorem copy_loop_failure_iff_negative_witness :
    (∀ l ∈ [((2 : Int), true, (0 : Int)), ((-1 : Int), false, (0 : Int))], l.2.2 = 0) ∧
    ((((exampleCopyLoop [3, -2, 7]).2 = 1 ↔ ∃ r ∈ [(3 : Int), -2, 7], r < 0) ∧
        writeResults (exampleCopyLoop [3, -2, 7]).1 = takeThroughNeg [3, -2, 7]) ∧
      (((ffiCopyLoop [(2, true, 0), (-1, false, 0)]).2 = 1 ↔
          ∃ l ∈ [((2 : Int), true, (0 : Int)), ((-1 : Int), false, (0 : Int))], l.1 < 0) ∧
        writeResults (ffiCopyLoop [(2, true, 0), (-1, false, 0)]).1 =
          takeThroughNeg ([(2, true, 0), (-1, false, 0)].map Prod.fst))) :=
  ⟨by decide,
    copy_loop_failure_iff_negative [3, -2, 7] [(2, true, 0), (-1, false, 0)] (by decide)⟩

/-- C9 counterexample: under 32-bit wrap-around semantics the loop of
next_power_of_two never terminates on the input 2^30 + 1: the power
variable walks through the powers of two, wraps to -2^31, collapses to 0
and stays there, so the guard power < value never becomes false. -/
theorem next_power_of_two_diverges : ¬ NextPowTerminates (2 ^ 30 + 1) := by
  rintro ⟨fuel, hf⟩
  exact hf
    (npotIter_none (2 ^ 30 + 1) (by norm_num) fuel 1
      (Or.inr (Or.inr ⟨0, by omega, by norm_num⟩)))

/-- C9 amended: for every value with 1 ≤ value ≤ 2^30, next_power_of_two
terminates and returns the smallest power of two greater than or equal to
value. -/
theorem next_power_of_two_least (value : Int) (h1 : 1 ≤ value)
    (h2 : value ≤ 2 ^ 30) :
    ∃ p, next_power_of_two value = some p ∧ IsLeastPow2Ge value p := by
  obtain ⟨k, hk30, hit, hle, hlt⟩ :=
    npotIter_sound 33 0 value h1 h2 (by omega) (by norm_num; linarith)
      (le_trans h2 (two_pow_le_two_pow_int 30 33 (by omega)))
  refine ⟨2 ^ k, ?_, isLeastPow2Ge_of value k hle hlt⟩
  unfold next_power_of_two
  simpa using hit

/-- Witness for C9 at value 20, whose next power of two is 32. -/
theorem next_power_of_two_least_witness :
    (1 : Int) ≤ 20 ∧ (20 : Int) ≤ 2 ^ 30 ∧
      ∃ p, next_power_of_two 20 = some p ∧ IsLeastPow2Ge 20 p :=
  ⟨by norm_num, by norm_num,
    next_power_of_two_least 20 (by norm_num) (by norm_num)⟩

/-- C10: a single 16-byte write on the freshly constructed payload makes
the new total equal to next_power_of_two(16) = 16, so the terminating NUL
is stored at index 16 of a 16-byte allocation: the index is not strictly
below the capacity, contradicting the claimed in-bounds property. -/
theorem custom_write_terminator_at_capacity :
    custom_write custom_file_handle_payload demoData16 =
      some ({ total_bytes_written := 16, capacity := 16, buffer := some demoData16 }, 16) ∧
    ¬ ((16 : Int) < (16 : Int)) :=
  ⟨by decide, by decide⟩

end ThinTraitObjects
